import Mathlib

/-!
Verification development for the conversation-memory core of the
`rag_chatbot` repository (`app/services/memory_manager.py`, class
`ConversationMemory`).

Modelling conventions:
* A Python interaction dict is the structure `Interaction`; dict keys that
  may be absent are `Option` fields (absent = `none`) or carry the default
  the code reads back (`is_retry` is read with a false default).
* The in-memory `self.conversations` dict is an association list
  `ConvState` in insertion order (Python dicts preserve insertion order).
* `datetime.now().isoformat()` is an explicit `now : String` argument;
  each method receives the instant at which it runs.  `datetime.fromisoformat`
  together with `timedelta.days` arithmetic is a parameter
  `fromIso : String → Option Int` returning the parsed time in whole days
  (`none` models a `ValueError`).
* Python `list` slicing `l[:k]` and indexing `l[k]` (including negative
  indices) are `pySliceTo` and `pyResolve`/`pyIdx`.
* `message_id.split('_')[1]` followed by `int(...)` is `parseMsgIndex`;
  the `ValueError` text is abbreviated to `invalidLiteralMsg` (the CPython
  message with the same shape), and the `IndexError` text is the literal
  Python message.  Exceptions caught by the methods' blanket handlers are
  returned as `OpResult.err` of the exception text, exactly as the code
  returns `{"error": str(e)}`.
* Disk persistence (`_save_conversation`) only mirrors the in-memory state
  and is not modelled; the methods' observable outcome is the updated
  in-memory state paired with the returned dict.
-/

deriving instance DecidableEq for Except

/-- Response payload dict (`response` key of an interaction): modelled as a
string-keyed association list.  The retry placeholder is `[("response", "")]`. -/
abbrev ResponseDict : Type := List (String × String)

/-- One interaction dict of a conversation log (`memory_manager.py` lines
60-65 for the append shape; edit/retry add the optional provenance keys). -/
structure Interaction where
  timestamp : String
  question : String
  response : ResponseDict
  context_used : Option (List String) := none
  edited_at : Option String := none
  is_retry : Bool := false
  previous_version : Option String := none
  retry_count : Option Nat := none
deriving Repr, DecidableEq

/-- The in-memory store `self.conversations : Dict[str, List[Dict]]`,
as an association list in insertion order. -/
abbrev ConvState : Type := List (String × List Interaction)

/-- Dict lookup `cid in d` / `d[cid]`. -/
def lookupConv : ConvState → String → Option (List Interaction)
  | [], _ => none
  | (k, v) :: rest, cid => if k = cid then some v else lookupConv rest cid

/-- Dict write `d[cid] = conv` (updates in place, inserts at the end when
absent — Python insertion-order semantics). -/
def setConv : ConvState → String → List Interaction → ConvState
  | [], cid, conv => [(cid, conv)]
  | (k, v) :: rest, cid, conv =>
    if k = cid then (k, conv) :: rest else (k, v) :: setConv rest cid conv

/-- Dict delete `del d[cid]`. -/
def eraseConv : ConvState → String → ConvState
  | [], _ => []
  | (k, v) :: rest, cid => if k = cid then rest else (k, v) :: eraseConv rest cid

/-- Python slice `l[:k]`, with negative-`k` semantics (`l[:k]` for `k < 0`
keeps the first `len(l) + k` elements, clamped at zero). -/
def pySliceTo (l : List α) (k : Int) : List α :=
  if 0 ≤ k then l.take k.toNat else l.take ((l.length : Int) + k).toNat

/-- Resolve a Python index `k` against a list of length `n`: non-negative
indices must be `< n`, negative indices count from the end; `none` is an
`IndexError`. -/
def pyResolve (n : Nat) (k : Int) : Option Nat :=
  if 0 ≤ k then (if k < (n : Int) then some k.toNat else none)
  else (if 0 ≤ (n : Int) + k then some ((n : Int) + k).toNat else none)

/-- Python read `l[k]`. -/
def pyIdx (l : List α) (k : Int) : Option α :=
  (pyResolve l.length k).bind l.get?

/-- Functional in-place update of one list cell (Python `l[i]["…"] = …`
mutates the dict held at position `i`). -/
def listModify (l : List α) (i : Nat) (f : α → α) : List α :=
  match l.get? i with
  | none => l
  | some a => l.set i (f a)

/-- Character-level model of Python `str.split('_')`. -/
def splitChars : List Char → List (List Char)
  | [] => [[]]
  | c :: cs =>
    let r := splitChars cs
    if c = '_' then [] :: r
    else
      match r with
      | [] => [[c]]
      | g :: gs => (c :: g) :: gs

/-- Python `message_id.split('_')`. -/
def pySplitU (s : String) : List String :=
  (splitChars s.data).map (fun l => String.mk l)

/-- Accumulator loop of decimal-digit parsing. -/
def digitsVal : Nat → List Char → Option Nat
  | acc, [] => some acc
  | acc, c :: cs => if c.isDigit then digitsVal (acc * 10 + (c.toNat - 48)) cs else none

/-- Decimal value of a non-empty all-digit character list. -/
def digitsToNat : List Char → Option Nat
  | [] => none
  | l => digitsVal 0 l

/-- Python `int(s)` (base 10) on an underscore-free segment: optional sign
followed by at least one digit; `none` models the `ValueError`. -/
def pyInt (s : String) : Option Int :=
  match s.data with
  | '-' :: rest => (digitsToNat rest).map (fun n => -(n : Int))
  | '+' :: rest => (digitsToNat rest).map (fun n => (n : Int))
  | l => (digitsToNat l).map (fun n => (n : Int))

/-- Text of the `ValueError` raised by `int(seg)` (CPython prints
`invalid literal for int() with base 10: ...`; the parenthesised form is
abbreviated, only its distinctness from other error texts matters). -/
def invalidLiteralMsg (seg : String) : String :=
  "invalid literal for int with base 10: " ++ seg

/-- The inline message-locator computation `int(message_id.split('_')[1])`
shared by `edit_message` (line 209), `retry_message` (line 239) and
`retry_response` (line 277): an `IndexError` when there is no second
segment, a `ValueError` when it is not an integer. -/
def parseMsgIndex (message_id : String) : Except String Int :=
  match (pySplitU message_id).get? 1 with
  | none => Except.error "list index out of range"
  | some seg =>
    match pyInt seg with
    | none => Except.error (invalidLiteralMsg seg)
    | some i => Except.ok i

/-- A conversation summary dict as returned by `get_conversation_summary`. -/
structure ConversationSummary where
  conversation_id : String
  total_interactions : Nat
  start_time : String
  last_interaction : String
  questions_asked : List String
deriving Repr, DecidableEq

/-- Return value of the dict-returning methods: a summary payload or an
`{"error": msg}` dict. -/
inductive OpResult where
  | ok (s : ConversationSummary)
  | err (msg : String)
deriving Repr, DecidableEq

/-- The effective `get_conversation_summary` (lines 117-146).  By Python
class-body semantics the first definition at lines 95-115 is shadowed by this
second one — the one difference is that an existing-but-empty conversation
yields a zeroed summary with synthesized timestamps instead of an error.
The two `datetime.now()` calls at lines 129-130 are modelled as the single
instant `now`. -/
def get_conversation_summary (conversations : ConvState) (conversation_id : String)
    (now : String) : OpResult :=
  match lookupConv conversations conversation_id with
  | none => OpResult.err "Conversation not found"
  | some [] =>
    OpResult.ok
      { conversation_id := conversation_id
        total_interactions := 0
        start_time := now
        last_interaction := now
        questions_asked := [] }
  | some (first :: rest) =>
    OpResult.ok
      { conversation_id := conversation_id
        total_interactions := (first :: rest).length
        start_time := first.timestamp
        last_interaction := (rest.getLastD first).timestamp
        questions_asked := (first :: rest).map Interaction.question }

/-- Interaction dict built by `add_interaction` (lines 60-65). -/
def mkInteraction (now question : String) (response : ResponseDict)
    (context_used : List String) : Interaction :=
  { timestamp := now
    question := question
    response := response
    context_used := some context_used }

/-- The `create_conversation` method (lines 47-53): registers an empty log
under a freshly generated id (the uuid is the explicit `fresh_id`). -/
def create_conversation (conversations : ConvState) (fresh_id : String) : ConvState :=
  setConv conversations fresh_id []

/-- The `add_interaction` method (lines 55-75): appends an interaction,
evicting index 0 when the log exceeds `max_history`; an unknown
`conversation_id` silently redirects to a freshly created conversation. -/
def add_interaction (conversations : ConvState) (conversation_id question : String)
    (response : ResponseDict) (context_used : List String)
    (max_history : Nat) (now fresh_id : String) : ConvState :=
  let p : ConvState × String :=
    match lookupConv conversations conversation_id with
    | none => (create_conversation conversations fresh_id, fresh_id)
    | some _ => (conversations, conversation_id)
  let conversations := p.1
  let cid := p.2
  let conversation := (lookupConv conversations cid).getD []
  let conversation := conversation ++ [mkInteraction now question response context_used]
  let conversation :=
    if max_history < conversation.length then conversation.drop 1 else conversation
  setConv conversations cid conversation

/-- The `delete_conversation` method (lines 159-172). -/
def delete_conversation (conversations : ConvState) (conversation_id : String) :
    ConvState × Bool :=
  match lookupConv conversations conversation_id with
  | none => (conversations, false)
  | some _ => (eraseConv conversations conversation_id, true)

/-- Loop body of `cleanup_old_conversations` (lines 180-193) over the
snapshot of keys: empty conversations are deleted and counted, a timestamp
that fails to parse raises a `ValueError` which the method-level handler
turns into a return value of `0` with the state as mutated so far. -/
def cleanupGo (fromIso : String → Option Int) (now max_age_days : Int) :
    List String → ConvState → Int → Int × ConvState
  | [], conversations, deleted_count => (deleted_count, conversations)
  | conv_id :: rest, conversations, deleted_count =>
    match lookupConv conversations conv_id with
    | none => (0, conversations)
    | some [] =>
      cleanupGo fromIso now max_age_days rest
        (delete_conversation conversations conv_id).1 (deleted_count + 1)
    | some (first :: more) =>
      match fromIso (more.getLastD first).timestamp with
      | none => (0, conversations)
      | some last_time =>
        if max_age_days < now - last_time then
          cleanupGo fromIso now max_age_days rest
            (delete_conversation conversations conv_id).1 (deleted_count + 1)
        else
          cleanupGo fromIso now max_age_days rest conversations deleted_count

/-- The `cleanup_old_conversations` method (lines 174-200): iterates over
`list(self.conversations.keys())` and returns the deleted count, or `0`
from the blanket `except` handler after a partial run. -/
def cleanup_old_conversations (fromIso : String → Option Int) (now max_age_days : Int)
    (conversations : ConvState) : Int × ConvState :=
  cleanupGo fromIso now max_age_days (conversations.map Prod.fst) conversations 0

/-- Dict update performed on the edited slot by `edit_message`
(lines 217-218 / 221-222). -/
def editInteraction (it : Interaction) (new_content now : String) : Interaction :=
  { it with question := new_content, edited_at := some now }

/-- The `edit_message` method (lines 202-230), returning the updated store
together with the returned dict. -/
def edit_message (conversations : ConvState) (conversation_id message_id new_content : String)
    (preserve_history : Bool) (now : String) : ConvState × OpResult :=
  match lookupConv conversations conversation_id with
  | none => (conversations, OpResult.err "Conversation not found")
  | some conversation =>
    match parseMsgIndex message_id with
    | Except.error e => (conversations, OpResult.err e)
    | Except.ok msg_index =>
      if (conversation.length : Int) ≤ msg_index then
        (conversations, OpResult.err "Message not found")
      else if preserve_history then
        let new_conversation := pySliceTo conversation (msg_index + 1)
        match pyResolve new_conversation.length msg_index with
        | none => (conversations, OpResult.err "list index out of range")
        | some i =>
          let st := setConv conversations conversation_id
            (listModify new_conversation i (fun it => editInteraction it new_content now))
          (st, get_conversation_summary st conversation_id now)
      else
        match pyResolve conversation.length msg_index with
        | none => (conversations, OpResult.err "list index out of range")
        | some i =>
          let st := setConv conversations conversation_id
            (pySliceTo (listModify conversation i (fun it => editInteraction it new_content now))
              (msg_index + 1))
          (st, get_conversation_summary st conversation_id now)

/-- The `retry_message` method (lines 232-268).  Note Python truthiness at
line 244: an empty `modified_content` string falls back to the stored
question, and the stored question is only read (possibly raising) when the
fallback is taken. -/
def retry_message (conversations : ConvState) (conversation_id message_id : String)
    (modified_content : Option String) (preserve_history : Bool) (now : String) :
    ConvState × OpResult :=
  match lookupConv conversations conversation_id with
  | none => (conversations, OpResult.err "Conversation not found")
  | some conversation =>
    match parseMsgIndex message_id with
    | Except.error e => (conversations, OpResult.err e)
    | Except.ok msg_index =>
      if (conversation.length : Int) ≤ msg_index then
        (conversations, OpResult.err "Message not found")
      else
        let retry_contentE : Except String String :=
          match modified_content with
          | some s =>
            if s = "" then
              match pyIdx conversation msg_index with
              | none => Except.error "list index out of range"
              | some it => Except.ok it.question
            else Except.ok s
          | none =>
            match pyIdx conversation msg_index with
            | none => Except.error "list index out of range"
            | some it => Except.ok it.question
        match retry_contentE with
        | Except.error e => (conversations, OpResult.err e)
        | Except.ok retry_content =>
          if preserve_history then
            let new_interaction : Interaction :=
              { timestamp := now
                question := retry_content
                response := [("response", "")]
                previous_version := some message_id
                is_retry := true }
            let st := setConv conversations conversation_id
              (pySliceTo conversation (msg_index + 1) ++ [new_interaction])
            (st, get_conversation_summary st conversation_id now)
          else
            match pyResolve conversation.length msg_index with
            | none => (conversations, OpResult.err "list index out of range")
            | some i =>
              let st := setConv conversations conversation_id
                (pySliceTo
                  (listModify conversation i
                    (fun it => { it with question := retry_content, timestamp := now,
                                         is_retry := true }))
                  (msg_index + 1))
              (st, get_conversation_summary st conversation_id now)

/-- The `retry_response` method (lines 270-310), with the even/odd question
index derivation of line 283 (`%` is Python/Euclidean remainder on `Int`). -/
def retry_response (conversations : ConvState) (conversation_id message_id : String)
    (preserve_history : Bool) (now : String) : ConvState × OpResult :=
  match lookupConv conversations conversation_id with
  | none => (conversations, OpResult.err "Conversation not found")
  | some conversation =>
    match parseMsgIndex message_id with
    | Except.error e => (conversations, OpResult.err e)
    | Except.ok msg_index =>
      if (conversation.length : Int) ≤ msg_index then
        (conversations, OpResult.err "Message not found")
      else
        let question_index := if msg_index % 2 = 1 then msg_index - 1 else msg_index
        if question_index < 0 ∨ (conversation.length : Int) ≤ question_index then
          (conversations, OpResult.err "Invalid message ID for response retry")
        else
          match pyIdx conversation question_index with
          | none => (conversations, OpResult.err "list index out of range")
          | some qit =>
            if preserve_history then
              let new_interaction : Interaction :=
                { timestamp := now
                  question := qit.question
                  response := [("response", "")]
                  is_retry := true
                  previous_version := some message_id }
              let st := setConv conversations conversation_id
                (pySliceTo conversation (msg_index + 1) ++ [new_interaction])
              (st, get_conversation_summary st conversation_id now)
            else
              match pyResolve conversation.length msg_index with
              | none => (conversations, OpResult.err "list index out of range")
              | some i =>
                let st := setConv conversations conversation_id
                  (pySliceTo
                    (listModify conversation i
                      (fun it => { it with retry_count := some (it.retry_count.getD 0 + 1),
                                           timestamp := now }))
                    (msg_index + 1))
                (st, get_conversation_summary st conversation_id now)

/-- Arguments of one `add_interaction` call (the caller-supplied payload
plus the instant of the call). -/
structure AppendArgs where
  question : String
  response : ResponseDict
  context_used : List String
  now : String

/-- A sequence of `add_interaction` calls aimed at one conversation id. -/
def appendRun (max_history : Nat) (conversation_id fresh_id : String)
    (xs : List AppendArgs) (st : ConvState) : ConvState :=
  xs.foldl
    (fun st x =>
      add_interaction st conversation_id x.question x.response x.context_used
        max_history x.now fresh_id)
    st

/-- Effect of one `add_interaction` call on a single log: append, then evict
index 0 when over `max_history` (lines 67-71). -/
def capAppend (conversation : List Interaction) (it : Interaction)
    (max_history : Nat) : List Interaction :=
  let c := conversation ++ [it]
  if max_history < c.length then c.drop 1 else c

/-- Last `n` elements of a list, in order. -/
def takeLast (n : Nat) (l : List α) : List α :=
  l.drop (l.length - n)

/-- One externally reachable Conversation Store operation; nondeterministic
ingredients (generated uuids, clock readings) are explicit fields. -/
inductive StoreOp where
  | create (fresh_id : String)
  | append (conversation_id fresh_id question : String) (response : ResponseDict)
      (context_used : List String) (now : String)
  | editMsg (conversation_id message_id new_content : String)
      (preserve_history : Bool) (now : String)
  | retryMsg (conversation_id message_id : String) (modified_content : Option String)
      (preserve_history : Bool) (now : String)
  | retryResp (conversation_id message_id : String) (preserve_history : Bool) (now : String)
  | deleteConv (conversation_id : String)
  | cleanupOld (now max_age_days : Int)

/-- State transition of one Conversation Store operation (the returned
payloads are dropped; only the store matters for reachability). -/
def applyStoreOp (fromIso : String → Option Int) (max_history : Nat)
    (st : ConvState) : StoreOp → ConvState
  | StoreOp.create fid => create_conversation st fid
  | StoreOp.append cid fid q r c now => add_interaction st cid q r c max_history now fid
  | StoreOp.editMsg cid mid nc ph now => (edit_message st cid mid nc ph now).1
  | StoreOp.retryMsg cid mid mc ph now => (retry_message st cid mid mc ph now).1
  | StoreOp.retryResp cid mid ph now => (retry_response st cid mid ph now).1
  | StoreOp.deleteConv cid => (delete_conversation st cid).1
  | StoreOp.cleanupOld now maxAge => (cleanup_old_conversations fromIso now maxAge st).2

/-- Store state reached by a sequence of operations from the initial empty
store. -/
def runOps (fromIso : String → Option Int) (max_history : Nat)
    (ops : List StoreOp) : ConvState :=
  ops.foldl (applyStoreOp fromIso max_history) []

/-- Detects operations that are not a preserve-history retry (the two
operations that grow a log without re-applying the `max_history` cap). -/
def opNoPreserveRetry : StoreOp → Bool
  | StoreOp.retryMsg _ _ _ ph _ => !ph
  | StoreOp.retryResp _ _ ph _ => !ph
  | _ => true

/-- Concrete interaction used by the closed counterexample theorems. -/
def demoInteraction (q t : String) : Interaction :=
  { timestamp := t, question := q, response := [], context_used := some [] }

/-- Concrete one-interaction log. -/
def demoConv1 : List Interaction := [demoInteraction "q0" "t0"]

/-- Concrete two-interaction log. -/
def demoConv2 : List Interaction := [demoInteraction "q0" "t0", demoInteraction "q1" "t1"]

/-- Concrete three-interaction log. -/
def demoConv3 : List Interaction :=
  [demoInteraction "q0" "t0", demoInteraction "q1" "t1", demoInteraction "q2" "t2"]

/-- Concrete operation sequence: create, one append, then a
preserve-history retry of the last message. -/
def demoRetryOps : List StoreOp :=
  [StoreOp.create "c",
   StoreOp.append "c" "f" "q0" [("response", "r0")] [] "t0",
   StoreOp.retryMsg "c" "c_0" none true "t1"]

/-- Concrete operation sequence containing no preserve-history retry:
create, one append, then an in-place edit. -/
def demoSafeOps : List StoreOp :=
  [StoreOp.create "c",
   StoreOp.append "c" "f" "q0" [("response", "r0")] [] "t0",
   StoreOp.editMsg "c" "c_0" "X" true "t1"]

/-- Concrete store holding one stale conversation followed by one whose
last timestamp does not parse. -/
def demoCleanupState : ConvState :=
  [("old", [demoInteraction "q" "0"]), ("bad", [demoInteraction "q" "x"])]

/-! ### Helper lemmas about the store primitives -/

theorem lookupConv_setConv_self (st : ConvState) (cid : String) (v : List Interaction) :
    lookupConv (setConv st cid v) cid = some v := by
  induction st with
  | nil => simp [setConv, lookupConv]
  | cons p rest ih =>
    obtain ⟨k, w⟩ := p
    by_cases h : k = cid
    · simp [setConv, lookupConv, h]
    · simp [setConv, lookupConv, h, ih]

theorem mem_setConv (st : ConvState) (cid : String) (v : List Interaction)
    (p : String × List Interaction) (hp : p ∈ setConv st cid v) :
    p ∈ st ∨ p = (cid, v) := by
  induction st with
  | nil => simpa [setConv] using hp
  | cons q rest ih =>
    obtain ⟨k, w⟩ := q
    by_cases h : k = cid
    · simp only [setConv, if_pos h] at hp
      rw [List.mem_cons] at hp
      rcases hp with hp | hp
      · right; rw [hp, h]
      · left; exact List.mem_cons_of_mem _ hp
    · simp only [setConv, if_neg h] at hp
      rw [List.mem_cons] at hp
      rcases hp with hp | hp
      · left; rw [hp]; exact List.mem_cons_self _ _
      · rcases ih hp with h' | h'
        · left; exact List.mem_cons_of_mem _ h'
        · right; exact h'

theorem mem_eraseConv (st : ConvState) (cid : String)
    (p : String × List Interaction) (hp : p ∈ eraseConv st cid) : p ∈ st := by
  induction st with
  | nil => simp [eraseConv] at hp
  | cons q rest ih =>
    obtain ⟨k, w⟩ := q
    by_cases h : k = cid
    · simp only [eraseConv, if_pos h] at hp
      exact List.mem_cons_of_mem _ hp
    · simp only [eraseConv, if_neg h] at hp
      rw [List.mem_cons] at hp
      rcases hp with hp | hp
      · rw [hp]; exact List.mem_cons_self _ _
      · exact List.mem_cons_of_mem _ (ih hp)

theorem lookupConv_mem (st : ConvState) (cid : String) (conv : List Interaction)
    (h : lookupConv st cid = some conv) : (cid, conv) ∈ st := by
  induction st with
  | nil => simp [lookupConv] at h
  | cons q rest ih =>
    obtain ⟨k, w⟩ := q
    by_cases hk : k = cid
    · subst hk
      simp [lookupConv] at h
      subst h
      exact List.mem_cons_self _ _
    · simp only [lookupConv, if_neg hk] at h
      exact List.mem_cons_of_mem _ (ih h)

theorem length_listModify (l : List α) (i : Nat) (f : α → α) :
    (listModify l i f).length = l.length := by
  unfold listModify
  cases h : l.get? i with
  | none => rfl
  | some a => simp

theorem length_pySliceTo_le (l : List α) (k : Int) :
    (pySliceTo l k).length ≤ l.length := by
  unfold pySliceTo
  split <;> (rw [List.length_take]; omega)

theorem takeLast_length (n : Nat) (l : List α) :
    (takeLast n l).length = min l.length n := by
  simp only [takeLast, List.length_drop]
  omega

/-- FIFO step law: capping an append onto the last-`n` window extends the
window by one element. -/
theorem capAppend_takeLast (l : List Interaction) (x : Interaction) (n : Nat) :
    capAppend (takeLast n l) x n = takeLast n (l ++ [x]) := by
  unfold capAppend takeLast
  have hx : (l ++ [x]).length = l.length + 1 := by simp
  rw [hx]
  by_cases h : n ≤ l.length
  · have hl : (l.drop (l.length - n)).length = n := by
      rw [List.length_drop]; omega
    have hc : n < ((l.drop (l.length - n)) ++ [x]).length := by
      rw [List.length_append, hl]
      simp
    rw [if_pos hc]
    by_cases hn : n = 0
    · subst hn
      rw [Nat.sub_zero, List.drop_length]
      have h3 : (l ++ [x]).length ≤ l.length + 1 - 0 := by simp
      simp [List.drop_eq_nil_of_le h3]
    · have h1 : (1 : Nat) ≤ (l.drop (l.length - n)).length := by omega
      rw [List.drop_append_of_le_length h1, List.drop_drop]
      have h2 : l.length + 1 - n ≤ l.length := by omega
      rw [List.drop_append_of_le_length h2]
      congr 2
      omega
  · have h0 : l.length - n = 0 := by omega
    have h1 : l.length + 1 - n = 0 := by omega
    rw [h0, h1, List.drop_zero, List.drop_zero]
    rw [if_neg (show ¬ n < (l ++ [x]).length by simp; omega)]

theorem pyResolve_natCast (n i : Nat) :
    pyResolve n (i : Int) = if i < n then some i else none := by
  unfold pyResolve
  rw [if_pos (by positivity)]
  by_cases h : i < n
  · rw [if_pos (by exact_mod_cast h), if_pos h, Int.toNat_natCast]
  · rw [if_neg (by exact_mod_cast h), if_neg h]

theorem pySliceTo_natCast (l : List α) (k : Nat) :
    pySliceTo l (k : Int) = l.take k := by
  unfold pySliceTo
  rw [if_pos (by positivity), Int.toNat_natCast]

theorem pySliceTo_natCast_succ (l : List α) (k : Nat) :
    pySliceTo l ((k : Int) + 1) = l.take (k + 1) := by
  have h : ((k : Int) + 1) = ((k + 1 : Nat) : Int) := by push_cast; ring
  rw [h, pySliceTo_natCast]

theorem set_concat_length (xs : List α) (a v : α) :
    (xs ++ [a]).set xs.length v = xs ++ [v] := by
  induction xs with
  | nil => rfl
  | cons x t ih =>
    simp only [List.cons_append, List.length_cons, List.set]
    exact congrArg (fun y => x :: y) ih

theorem listModify_append_last (xs : List α) (a : α) (f : α → α) :
    listModify (xs ++ [a]) xs.length f = xs ++ [f a] := by
  unfold listModify
  rw [List.get?_eq_getElem?, List.getElem?_concat_length]
  show (xs ++ [a]).set xs.length (f a) = xs ++ [f a]
  exact set_concat_length xs a (f a)

theorem take_succ_get (l : List α) (k : Nat) (hk : k < l.length) :
    l.take (k + 1) = l.take k ++ [l.get ⟨k, hk⟩] := by
  induction l generalizing k with
  | nil => simp at hk
  | cons x t ih =>
    cases k with
    | zero => simp [List.take, List.get]
    | succ m =>
      simp only [List.take, List.get, List.cons_append]
      rw [ih m (by simpa using Nat.lt_of_succ_lt_succ hk)]

theorem take_succ_set (l : List α) (k : Nat) (v : α) :
    (l.set k v).take (k + 1) = l.take k ++ (if k < l.length then [v] else []) := by
  induction l generalizing k with
  | nil => simp
  | cons x t ih =>
    cases k with
    | zero => simp
    | succ m =>
      simp only [List.set, List.take, List.cons_append, List.length_cons]
      rw [ih m]
      have hiff : m + 1 < t.length + 1 ↔ m < t.length := by omega
      rw [if_congr hiff rfl rfl]

theorem listModify_as_set (l : List α) (k : Nat) (f : α → α) (hk : k < l.length) :
    listModify l k f = l.set k (f (l.get ⟨k, hk⟩)) := by
  unfold listModify
  rw [List.get?_eq_get hk]

/-- Editing slot `k` of the truncation `l[:k+1]` produces
`l[:k] ++ [f (l[k])]`. -/
theorem listModify_take_succ (l : List α) (k : Nat) (f : α → α) (hk : k < l.length) :
    listModify (l.take (k + 1)) k f = l.take k ++ [f (l.get ⟨k, hk⟩)] := by
  rw [take_succ_get l k hk]
  have h : (l.take k).length = k := by rw [List.length_take]; omega
  calc listModify (l.take k ++ [l.get ⟨k, hk⟩]) k f
      = listModify (l.take k ++ [l.get ⟨k, hk⟩]) (l.take k).length f := by rw [h]
    _ = l.take k ++ [f (l.get ⟨k, hk⟩)] := listModify_append_last _ _ _

/-- Editing slot `k` of `l` and then truncating to `l[:k+1]` produces the
same list. -/
theorem take_succ_listModify (l : List α) (k : Nat) (f : α → α) (hk : k < l.length) :
    (listModify l k f).take (k + 1) = l.take k ++ [f (l.get ⟨k, hk⟩)] := by
  rw [listModify_as_set l k f hk, take_succ_set, if_pos hk]

theorem summary_of_lookup_some (st : ConvState) (cid now : String) (l : List Interaction)
    (h : lookupConv st cid = some l) :
    ∃ s, get_conversation_summary st cid now = OpResult.ok s := by
  unfold get_conversation_summary
  rw [h]
  cases l with
  | nil => exact ⟨_, rfl⟩
  | cons a as => exact ⟨_, rfl⟩

theorem splitChars_no_underscore (l : List Char) (h : '_' ∉ l) :
    splitChars l = [l] := by
  induction l with
  | nil => rfl
  | cons c cs ih =>
    have hc : c ≠ '_' := fun hc => h (by rw [hc]; exact List.mem_cons_self _ _)
    have hcs : '_' ∉ cs := fun hm => h (List.mem_cons_of_mem _ hm)
    simp only [splitChars, ih hcs]
    rw [if_neg (by simpa using hc)]

theorem splitChars_mid_underscore (c s : List Char) (hc : '_' ∉ c) (hs : '_' ∉ s) :
    splitChars (c ++ '_' :: s) = [c, s] := by
  induction c with
  | nil =>
    simp only [List.nil_append, splitChars]
    rw [if_pos trivial, splitChars_no_underscore s hs]
  | cons x xs ih =>
    have hx : x ≠ '_' := fun h => hc (by rw [h]; exact List.mem_cons_self _ _)
    have hxs : '_' ∉ xs := fun hm => hc (List.mem_cons_of_mem _ hm)
    simp only [List.cons_append, splitChars]
    rw [if_neg (by simpa using hx)]
    simp only [List.append_eq]
    rw [ih hxs]

theorem string_mk_data (s : String) : String.mk s.data = s := rfl

theorem parseMsgIndex_of_underscore_sep (c seg : String)
    (hc : '_' ∉ c.data) (hs : '_' ∉ seg.data) :
    parseMsgIndex (c ++ "_" ++ seg)
      = (pyInt seg).elim (Except.error (invalidLiteralMsg seg)) Except.ok := by
  unfold parseMsgIndex pySplitU
  have hu : ("_" : String).data = ['_'] := by decide
  have hdata : (c ++ "_" ++ seg).data = c.data ++ '_' :: seg.data := by
    rw [String.data_append, String.data_append, hu]
    simp
  rw [hdata, splitChars_mid_underscore c.data seg.data hc hs]
  simp only [List.map, string_mk_data, List.get?]
  cases h : pyInt seg with
  | none => rfl
  | some i => rfl

/-- Characterization of `edit_message` with `preserve_history = true` at a
resolved in-range index. -/
theorem edit_message_true_eq (st : ConvState) (cid mid nc now : String)
    (conv : List Interaction) (k : Nat)
    (h : lookupConv st cid = some conv) (hk : k < conv.length)
    (hm : parseMsgIndex mid = Except.ok (k : Int)) :
    edit_message st cid mid nc true now
      = (setConv st cid (conv.take k ++ [editInteraction (conv.get ⟨k, hk⟩) nc now]),
         get_conversation_summary
           (setConv st cid (conv.take k ++ [editInteraction (conv.get ⟨k, hk⟩) nc now]))
           cid now) := by
  have hg : ¬ ((conv.length : Int) ≤ (k : Int)) := by omega
  have hlen : (conv.take (k + 1)).length = k + 1 := by
    rw [List.length_take]; omega
  simp only [edit_message, h, hm, if_neg hg, if_pos rfl, pySliceTo_natCast_succ,
    hlen, pyResolve_natCast, if_pos (Nat.lt_succ_self k),
    listModify_take_succ conv k _ hk, if_true]

/-- Characterization of `edit_message` with `preserve_history = false` at a
resolved in-range index: the identical outcome. -/
theorem edit_message_false_eq (st : ConvState) (cid mid nc now : String)
    (conv : List Interaction) (k : Nat)
    (h : lookupConv st cid = some conv) (hk : k < conv.length)
    (hm : parseMsgIndex mid = Except.ok (k : Int)) :
    edit_message st cid mid nc false now
      = (setConv st cid (conv.take k ++ [editInteraction (conv.get ⟨k, hk⟩) nc now]),
         get_conversation_summary
           (setConv st cid (conv.take k ++ [editInteraction (conv.get ⟨k, hk⟩) nc now]))
           cid now) := by
  have hg : ¬ ((conv.length : Int) ≤ (k : Int)) := by omega
  simp only [edit_message, h, hm, if_neg hg, Bool.false_eq_true, if_false,
    pyResolve_natCast, if_pos hk, pySliceTo_natCast_succ,
    take_succ_listModify conv k _ hk]

/-- C1: on a conversation of length `n` and a message id resolving to
`k < n`, `edit_message(…, preserve_history = true)` leaves a log of length
`k + 1`; slot `k` carries the new content and an `edited_at` stamp, slots
`0..k-1` are unchanged, and everything after `k` is discarded. -/
theorem edit_message_preserve_truncates_and_edits
    (conv : List Interaction) (k : Nat) (cid mid nc now : String)
    (hk : k < conv.length) (hm : parseMsgIndex mid = Except.ok (k : Int)) :
    ∃ log, lookupConv (edit_message [(cid, conv)] cid mid nc true now).1 cid = some log
      ∧ log.length = k + 1
      ∧ (∀ j, j < k → log.get? j = conv.get? j)
      ∧ (log.get? k).map Interaction.question = some nc
      ∧ (log.get? k).bind Interaction.edited_at = some now := by
  have h0 : lookupConv [(cid, conv)] cid = some conv := by simp [lookupConv]
  rw [edit_message_true_eq [(cid, conv)] cid mid nc now conv k h0 hk hm]
  have htk : (conv.take k).length = k := by rw [List.length_take]; omega
  refine ⟨conv.take k ++ [editInteraction (conv.get ⟨k, hk⟩) nc now],
    lookupConv_setConv_self _ _ _, ?_, ?_, ?_, ?_⟩
  · rw [List.length_append, htk]; rfl
  · intro j hj
    rw [List.get?_append (by omega : j < (conv.take k).length)]
    exact List.get?_take hj
  · have hq := List.get?_concat_length (conv.take k) (editInteraction (conv.get ⟨k, hk⟩) nc now)
    rw [htk] at hq
    rw [hq]
    rfl
  · have hq := List.get?_concat_length (conv.take k) (editInteraction (conv.get ⟨k, hk⟩) nc now)
    rw [htk] at hq
    rw [hq]
    rfl

/-- C10: at a known conversation and an in-range resolved index, the
`preserve_history` flag makes no observable difference to `edit_message`:
both calls return the same store and the same summary. -/
theorem edit_message_preserve_flag_irrelevant (st : ConvState)
    (cid mid nc now : String) (conv : List Interaction) (k : Nat)
    (h : lookupConv st cid = some conv) (hk : k < conv.length)
    (hm : parseMsgIndex mid = Except.ok (k : Int)) :
    edit_message st cid mid nc true now = edit_message st cid mid nc false now := by
  rw [edit_message_true_eq st cid mid nc now conv k h hk hm,
    edit_message_false_eq st cid mid nc now conv k h hk hm]

/-- C8: an existing conversation with zero interactions gets a successful
summary with zero counts, no questions, and both timestamps synthesized
from the current instant. -/
theorem summary_empty_conversation_ok (st : ConvState) (cid now : String)
    (h : lookupConv st cid = some []) :
    get_conversation_summary st cid now
      = OpResult.ok
          { conversation_id := cid
            total_interactions := 0
            start_time := now
            last_interaction := now
            questions_asked := [] } := by
  unfold get_conversation_summary
  rw [h]

theorem edit_message_preserve_truncates_and_edits_witness :
    1 < demoConv3.length ∧ parseMsgIndex "c_1" = Except.ok ((1 : Nat) : Int) ∧
      (∃ log,
        lookupConv (edit_message [("c", demoConv3)] "c" "c_1" "NEW" true "t9").1 "c" = some log
        ∧ log.length = 1 + 1
        ∧ (∀ j, j < 1 → log.get? j = demoConv3.get? j)
        ∧ (log.get? 1).map Interaction.question = some "NEW"
        ∧ (log.get? 1).bind Interaction.edited_at = some "t9") :=
  ⟨by decide, by decide,
    edit_message_preserve_truncates_and_edits demoConv3 1 "c" "c_1" "NEW" "t9"
      (by decide) (by decide)⟩

theorem edit_message_preserve_flag_irrelevant_witness :
    lookupConv [("c", demoConv3)] "c" = some demoConv3 ∧ 1 < demoConv3.length ∧
      parseMsgIndex "c_1" = Except.ok ((1 : Nat) : Int) ∧
      edit_message [("c", demoConv3)] "c" "c_1" "NEW" true "t9"
        = edit_message [("c", demoConv3)] "c" "c_1" "NEW" false "t9" :=
  ⟨by decide, by decide, by decide,
    edit_message_preserve_flag_irrelevant [("c", demoConv3)] "c" "c_1" "NEW" "t9"
      demoConv3 1 (by decide) (by decide) (by decide)⟩

theorem summary_empty_conversation_ok_witness :
    lookupConv [("e", [])] "e" = some [] ∧
      get_conversation_summary [("e", [])] "e" "t5"
        = OpResult.ok
            { conversation_id := "e"
              total_interactions := 0
              start_time := "t5"
              last_interaction := "t5"
              questions_asked := [] } :=
  ⟨by decide, summary_empty_conversation_ok [("e", [])] "e" "t5" (by decide)⟩

/-- C4: on a log `[q0, q1, q2]` and a message id resolving to index 1,
`retry_response(…, preserve_history = true)` derives question index 0
(odd index maps to its predecessor), truncates to `[q0, q1]`, and appends a
retry interaction reusing `q0`'s question with an empty response
placeholder, `is_retry` set and `previous_version = message_id`; the
resulting log has length 3. -/
theorem retry_response_odd_index_derivation
    (i0 i1 i2 : Interaction) (cid mid now : String)
    (hm : parseMsgIndex mid = Except.ok 1) :
    retry_response [(cid, [i0, i1, i2])] cid mid true now
      = ([(cid, [i0, i1,
            { timestamp := now
              question := i0.question
              response := [("response", "")]
              is_retry := true
              previous_version := some mid }])],
         OpResult.ok
           { conversation_id := cid
             total_interactions := 3
             start_time := i0.timestamp
             last_interaction := now
             questions_asked := [i0.question, i1.question, i0.question] }) := by
  have h0 : lookupConv [(cid, [i0, i1, i2])] cid = some [i0, i1, i2] := by
    simp [lookupConv]
  simp [retry_response, h0, hm, pyIdx, pyResolve, pySliceTo, setConv]
  simp [get_conversation_summary, lookupConv, List.getLastD]

theorem retry_response_odd_index_derivation_witness :
    parseMsgIndex "c_1" = Except.ok 1 ∧
      retry_response [("c", demoConv3)] "c" "c_1" true "t9"
        = ([("c", [demoInteraction "q0" "t0", demoInteraction "q1" "t1",
              { timestamp := "t9"
                question := (demoInteraction "q0" "t0").question
                response := [("response", "")]
                is_retry := true
                previous_version := some "c_1" }])],
           OpResult.ok
             { conversation_id := "c"
               total_interactions := 3
               start_time := (demoInteraction "q0" "t0").timestamp
               last_interaction := "t9"
               questions_asked := [(demoInteraction "q0" "t0").question,
                 (demoInteraction "q1" "t1").question,
                 (demoInteraction "q0" "t0").question] }) :=
  ⟨by decide,
    retry_response_odd_index_derivation (demoInteraction "q0" "t0")
      (demoInteraction "q1" "t1") (demoInteraction "q2" "t2") "c" "c_1" "t9" (by decide)⟩

/-- On a known conversation id, `add_interaction` is exactly a capped
append on that conversation's log. -/
theorem add_interaction_known (st : ConvState) (cid q : String) (r : ResponseDict)
    (c : List String) (max_history : Nat) (now fid : String)
    (conv : List Interaction) (h : lookupConv st cid = some conv) :
    add_interaction st cid q r c max_history now fid
      = setConv st cid (capAppend conv (mkInteraction now q r c) max_history) := by
  simp only [add_interaction, capAppend, h, Option.getD_some]

/-- Folding appends over a store whose target log is the last-`max` window
of `l` yields the last-`max` window of `l` extended by the appended
interactions. -/
theorem appendRun_takeLast (max_history : Nat) (cid fid : String) (xs : List AppendArgs) :
    ∀ (st : ConvState) (l : List Interaction),
      lookupConv st cid = some (takeLast max_history l) →
      lookupConv (appendRun max_history cid fid xs st) cid
        = some (takeLast max_history
            (l ++ xs.map (fun x => mkInteraction x.now x.question x.response x.context_used))) := by
  induction xs with
  | nil =>
    intro st l h
    simpa [appendRun] using h
  | cons x t ih =>
    intro st l h
    show lookupConv
        (appendRun max_history cid fid t
          (add_interaction st cid x.question x.response x.context_used max_history x.now fid))
        cid = _
    rw [add_interaction_known st cid x.question x.response x.context_used max_history
      x.now fid _ h, capAppend_takeLast]
    have h2 := ih (setConv st cid
        (takeLast max_history (l ++ [mkInteraction x.now x.question x.response x.context_used])))
      (l ++ [mkInteraction x.now x.question x.response x.context_used])
      (lookupConv_setConv_self _ _ _)
    rw [h2]
    simp

/-- C2: starting from a fresh conversation, any sequence of
`add_interaction` calls leaves exactly the most recently appended
`min(total, max_history)` interactions, in append order, and the log length
never exceeds `max_history` (this holds after every prefix of the sequence,
each prefix being itself such a sequence). -/
theorem add_interaction_fifo_cap (max_history : Nat) (cid fid : String)
    (xs : List AppendArgs) :
    lookupConv (appendRun max_history cid fid xs [(cid, [])]) cid
      = some (takeLast max_history
          (xs.map (fun x => mkInteraction x.now x.question x.response x.context_used)))
    ∧ (takeLast max_history
        (xs.map (fun x => mkInteraction x.now x.question x.response x.context_used))).length
        = min xs.length max_history
    ∧ (takeLast max_history
        (xs.map (fun x => mkInteraction x.now x.question x.response x.context_used))).length
        ≤ max_history := by
  refine ⟨?_, ?_, ?_⟩
  · have h0 : lookupConv [(cid, [])] cid = some (takeLast max_history ([] : List Interaction)) := by
      simp [lookupConv, takeLast]
    simpa using appendRun_takeLast max_history cid fid xs [(cid, [])] [] h0
  · rw [takeLast_length, List.length_map]
  · rw [takeLast_length]
    omega

/-- C3 counterexample: with `max_history = 1`, the state reached by
create, one append, then a preserve-history retry holds a conversation of
length 2 — a reachable store state whose log exceeds `max_history`. -/
theorem max_history_cap_violated_by_retry :
    lookupConv (runOps pyInt 1 demoRetryOps) "c" ≠ none
    ∧ ¬ ((lookupConv (runOps pyInt 1 demoRetryOps) "c").getD []).length ≤ 1 := by
  decide

/-- C5 counterexample: for the underscore-bearing conversation id `"a_b"`,
the identifier `"a_b_0"` does not resolve to index 0 — the parser reads the
segment `"b"` and the edit fails with the `int()` `ValueError` text. -/
theorem locator_underscore_id_counterexample :
    parseMsgIndex "a_b_0" = Except.error (invalidLiteralMsg "b")
    ∧ edit_message [("a_b", demoConv1)] "a_b" "a_b_0" "NEW" true "t9"
        = ([("a_b", demoConv1)], OpResult.err (invalidLiteralMsg "b")) := by
  decide

/-- C5: the identifier parser reads the underscore-delimited segment at
position 1; for an underscore-free conversation id, `cid ++ "_" ++ seg`
resolves to the integer value of `seg`. -/
theorem locator_reads_second_segment (c seg : String) (i : Int)
    (hc : '_' ∉ c.data) (hs : '_' ∉ seg.data) (hi : pyInt seg = some i) :
    parseMsgIndex (c ++ "_" ++ seg) = Except.ok i := by
  rw [parseMsgIndex_of_underscore_sep c seg hc hs, hi]
  rfl

theorem locator_reads_second_segment_witness :
    '_' ∉ ("conv" : String).data ∧ '_' ∉ ("2" : String).data
    ∧ pyInt "2" = some 2
    ∧ parseMsgIndex ("conv" ++ "_" ++ "2") = Except.ok 2 :=
  ⟨by decide, by decide, by decide,
    locator_reads_second_segment "conv" "2" 2 (by decide) (by decide) (by decide)⟩

/-- C6 counterexample: the identifier `"c_1_x"` has the non-numeric
trailing segment `"x"`, yet `edit_message` succeeds (the parser only looks
at segment 1) instead of failing with a distinguished invalid-identifier
error. -/
theorem invalid_trailing_segment_counterexample :
    (edit_message [("c", demoConv2)] "c" "c_1_x" "NEW" true "t9").2
      = OpResult.ok
          { conversation_id := "c"
            total_interactions := 2
            start_time := "t0"
            last_interaction := "t1"
            questions_asked := ["q0", "NEW"] } := by
  decide

/-- C6: when the parsed segment (position 1) of the identifier is not an
integer, all three locator clients return the blanket-handler error carrying
the `ValueError` text, which differs from both not-found error strings, so
the caller can still tell the cases apart by the error value; there is no
distinguished invalid-identifier error code, and identifiers whose parsed
segment is numeric succeed regardless of the trailing segment. -/
theorem parse_failure_error_distinct (st : ConvState) (cid mid nc now : String)
    (mc : Option String) (ph : Bool) (conv : List Interaction)
    (h : lookupConv st cid = some conv) (seg : String)
    (hseg : (pySplitU mid).get? 1 = some seg) (hfail : pyInt seg = none) :
    edit_message st cid mid nc ph now = (st, OpResult.err (invalidLiteralMsg seg))
    ∧ retry_message st cid mid mc ph now = (st, OpResult.err (invalidLiteralMsg seg))
    ∧ retry_response st cid mid ph now = (st, OpResult.err (invalidLiteralMsg seg))
    ∧ invalidLiteralMsg seg ≠ "Message not found"
    ∧ invalidLiteralMsg seg ≠ "Conversation not found" := by
  have hp : parseMsgIndex mid = Except.error (invalidLiteralMsg seg) := by
    simp only [parseMsgIndex, hseg, hfail]
  have e1 : ("invalid literal for int with base 10: " : String).length = 38 := by decide
  refine ⟨?_, ?_, ?_, ?_, ?_⟩
  · simp [edit_message, h, hp]
  · simp [retry_message, h, hp]
  · simp [retry_response, h, hp]
  · intro hEq
    have hlen := congrArg String.length hEq
    rw [invalidLiteralMsg, String.length_append, e1] at hlen
    have e2 : ("Message not found" : String).length = 17 := by decide
    omega
  · intro hEq
    have hlen := congrArg String.length hEq
    rw [invalidLiteralMsg, String.length_append, e1] at hlen
    have e2 : ("Conversation not found" : String).length = 22 := by decide
    omega

theorem parse_failure_error_distinct_witness :
    lookupConv [("c", demoConv2)] "c" = some demoConv2
    ∧ (pySplitU "c_y_0").get? 1 = some "y"
    ∧ pyInt "y" = none
    ∧ (edit_message [("c", demoConv2)] "c" "c_y_0" "NEW" true "t9"
          = ([("c", demoConv2)], OpResult.err (invalidLiteralMsg "y"))
        ∧ retry_message [("c", demoConv2)] "c" "c_y_0" none true "t9"
          = ([("c", demoConv2)], OpResult.err (invalidLiteralMsg "y"))
        ∧ retry_response [("c", demoConv2)] "c" "c_y_0" true "t9"
          = ([("c", demoConv2)], OpResult.err (invalidLiteralMsg "y"))
        ∧ invalidLiteralMsg "y" ≠ "Message not found"
        ∧ invalidLiteralMsg "y" ≠ "Conversation not found") :=
  ⟨by decide, by decide, by decide,
    parse_failure_error_distinct [("c", demoConv2)] "c" "c_y_0" "NEW" "t9" none true
      demoConv2 (by decide) "y" (by decide) (by decide)⟩

/-- C9 counterexample: cleaning up a store where one stale conversation is
deleted and the next conversation's timestamp fails to parse returns a
count of `0` — not the `1` conversation actually deleted — while the
deletion itself remains applied in the returned store. -/
theorem cleanup_failure_returns_zero_counterexample :
    cleanup_old_conversations pyInt 100 30 demoCleanupState
      = (0, [("bad", [demoInteraction "q" "x"])]) := by
  decide

/-- C9: when the cleanup sweep hits a conversation whose last timestamp
fails to parse, the loop aborts returning count `0` — regardless of how
many conversations were already deleted in this run — and the store is left
exactly as mutated so far (earlier deletions remain applied, no rollback). -/
theorem cleanup_failure_keeps_state (fromIso : String → Option Int)
    (now max_age_days : Int) (ks : List String) (st : ConvState) (count : Int)
    (cid : String) (first : Interaction) (more : List Interaction)
    (h : lookupConv st cid = some (first :: more))
    (hfail : fromIso (more.getLastD first).timestamp = none) :
    cleanupGo fromIso now max_age_days (cid :: ks) st count = (0, st) := by
  rw [List.getLastD_eq_getLast?] at hfail
  simp [cleanupGo, h, hfail]

theorem cleanup_failure_keeps_state_witness :
    lookupConv [("bad", [demoInteraction "q" "x"])] "bad" = some [demoInteraction "q" "x"]
    ∧ pyInt ((List.getLastD [] (demoInteraction "q" "x")).timestamp) = none
    ∧ cleanupGo pyInt 100 30 ["bad"] [("bad", [demoInteraction "q" "x"])] 1
        = (0, [("bad", [demoInteraction "q" "x"])]) :=
  ⟨by decide, by decide,
    cleanup_failure_keeps_state pyInt 100 30 [] [("bad", [demoInteraction "q" "x"])] 1
      "bad" (demoInteraction "q" "x") [] (by decide) (by decide)⟩

/-- C7 counterexample: on a three-interaction conversation, the identifier
`"c_-2"` (negative index) is not rejected with a not-found error —
`edit_message` succeeds, interpreting the index Python-style from the end. -/
theorem negative_index_not_notfound_counterexample :
    parseMsgIndex "c_-2" = Except.ok (-2)
    ∧ (edit_message [("c", demoConv3)] "c" "c_-2" "NEW" true "t9").2
        = OpResult.ok
            { conversation_id := "c"
              total_interactions := 2
              start_time := "t0"
              last_interaction := "t1"
              questions_asked := ["NEW", "q1"] } := by
  decide

/-- C7: for a conversation of length `n` and an identifier resolving to the
integer `i`: the call succeeds editing index `i` exactly when `0 ≤ i < n`,
fails with the not-found error when `i ≥ n`, and for `i < 0` is never
rejected with a not-found error (the negative value flows into Python
slicing/indexing, so the call either succeeds or raises an index error). -/
theorem locator_bounds_behavior (conv : List Interaction)
    (cid mid nc now : String) (i : Int)
    (hm : parseMsgIndex mid = Except.ok i) :
    (0 ≤ i → i < (conv.length : Int) →
      ∃ a, conv.get? i.toNat = some a
        ∧ (edit_message [(cid, conv)] cid mid nc true now).1
            = [(cid, conv.take i.toNat ++ [editInteraction a nc now])])
    ∧ ((conv.length : Int) ≤ i →
      edit_message [(cid, conv)] cid mid nc true now
        = ([(cid, conv)], OpResult.err "Message not found"))
    ∧ (i < 0 →
      (edit_message [(cid, conv)] cid mid nc true now).2 ≠ OpResult.err "Message not found"
      ∧ (edit_message [(cid, conv)] cid mid nc true now).2
          ≠ OpResult.err "Conversation not found") := by
  have h0 : lookupConv [(cid, conv)] cid = some conv := by simp [lookupConv]
  refine ⟨?_, ?_, ?_⟩
  · intro hnn hlt
    have hk : i.toNat < conv.length := by omega
    have hi : i = ((i.toNat : Nat) : Int) := by omega
    rw [hi] at hm
    refine ⟨conv.get ⟨i.toNat, hk⟩, List.get?_eq_get hk, ?_⟩
    rw [edit_message_true_eq [(cid, conv)] cid mid nc now conv i.toNat h0 hk hm]
    simp [setConv]
  · intro hge
    simp [edit_message, h0, hm, if_pos hge]
  · intro hneg
    have hg : ¬ ((conv.length : Int) ≤ i) := by omega
    simp only [edit_message, h0, hm, if_neg hg, if_true, if_pos rfl]
    cases hr : pyResolve (pySliceTo conv (i + 1)).length i with
    | none => simp [hr]
    | some j =>
      simp only [hr]
      obtain ⟨s, hs⟩ := summary_of_lookup_some
        (setConv [(cid, conv)] cid
          (listModify (pySliceTo conv (i + 1)) j (fun it => editInteraction it nc now)))
        cid now _ (lookupConv_setConv_self _ _ _)
      simp [hs]

theorem locator_bounds_behavior_witness :
    parseMsgIndex "c_1" = Except.ok 1
    ∧ ((0 ≤ (1 : Int) → (1 : Int) < (demoConv3.length : Int) →
        ∃ a, demoConv3.get? (1 : Int).toNat = some a
          ∧ (edit_message [("c", demoConv3)] "c" "c_1" "NEW" true "t9").1
              = [("c", demoConv3.take (1 : Int).toNat ++ [editInteraction a "NEW" "t9"])])
      ∧ ((demoConv3.length : Int) ≤ 1 →
        edit_message [("c", demoConv3)] "c" "c_1" "NEW" true "t9"
          = ([("c", demoConv3)], OpResult.err "Message not found"))
      ∧ ((1 : Int) < 0 →
        (edit_message [("c", demoConv3)] "c" "c_1" "NEW" true "t9").2
            ≠ OpResult.err "Message not found"
        ∧ (edit_message [("c", demoConv3)] "c" "c_1" "NEW" true "t9").2
            ≠ OpResult.err "Conversation not found")) :=
  ⟨by decide, locator_bounds_behavior demoConv3 "c" "c_1" "NEW" "t9" 1 (by decide)⟩

/-! ### The `max_history` invariant over operation sequences -/

theorem capAppend_length_le (conv : List Interaction) (x : Interaction)
    (max_history : Nat) (h : conv.length ≤ max_history) :
    (capAppend conv x max_history).length ≤ max_history := by
  unfold capAppend
  by_cases hc : max_history < (conv ++ [x]).length
  · rw [if_pos hc]
    simp only [List.length_drop, List.length_append, List.length_cons, List.length_nil]
    omega
  · rw [if_neg hc]
    omega

theorem inv_setConv (max_history : Nat) (st : ConvState) (cid : String)
    (v : List Interaction)
    (hst : ∀ p ∈ st, (Prod.snd p).length ≤ max_history)
    (hv : v.length ≤ max_history) :
    ∀ p ∈ setConv st cid v, (Prod.snd p).length ≤ max_history := by
  intro p hp
  rcases mem_setConv st cid v p hp with h | h
  · exact hst p h
  · rw [h]
    exact hv

theorem inv_eraseConv (max_history : Nat) (st : ConvState) (cid : String)
    (hst : ∀ p ∈ st, (Prod.snd p).length ≤ max_history) :
    ∀ p ∈ eraseConv st cid, (Prod.snd p).length ≤ max_history :=
  fun p hp => hst p (mem_eraseConv st cid p hp)

/-- On an unknown conversation id, `add_interaction` creates a fresh log
and cap-appends to it. -/
theorem add_interaction_unknown (st : ConvState) (cid q : String) (r : ResponseDict)
    (c : List String) (max_history : Nat) (now fid : String)
    (h : lookupConv st cid = none) :
    add_interaction st cid q r c max_history now fid
      = setConv (create_conversation st fid) fid
          (capAppend [] (mkInteraction now q r c) max_history) := by
  simp only [add_interaction, capAppend, h, create_conversation,
    lookupConv_setConv_self, Option.getD_some, List.nil_append]

/-- The store after `edit_message` is either unchanged or has the target
conversation replaced by a list no longer than before. -/
theorem edit_message_state (st : ConvState) (cid mid nc now : String) (ph : Bool) :
    (edit_message st cid mid nc ph now).1 = st
    ∨ ∃ conv v, lookupConv st cid = some conv ∧ v.length ≤ conv.length
        ∧ (edit_message st cid mid nc ph now).1 = setConv st cid v := by
  cases hl : lookupConv st cid with
  | none =>
    left
    simp [edit_message, hl]
  | some conv =>
    cases hp : parseMsgIndex mid with
    | error e =>
      left
      simp [edit_message, hl, hp]
    | ok k =>
      by_cases hg : (conv.length : Int) ≤ k
      · left
        simp [edit_message, hl, hp, hg]
      · by_cases hph : ph = true
        · subst hph
          cases hr : pyResolve (pySliceTo conv (k + 1)).length k with
          | none =>
            left
            simp [edit_message, hl, hp, hg, hr]
          | some j =>
            right
            refine ⟨conv,
              listModify (pySliceTo conv (k + 1)) j (fun it => editInteraction it nc now),
              rfl, ?_, ?_⟩
            · rw [length_listModify]
              exact length_pySliceTo_le _ _
            · simp [edit_message, hl, hp, hg, hr]
        · rw [Bool.not_eq_true] at hph
          subst hph
          cases hr : pyResolve conv.length k with
          | none =>
            left
            simp [edit_message, hl, hp, hg, hr]
          | some j =>
            right
            refine ⟨conv,
              pySliceTo (listModify conv j (fun it => editInteraction it nc now)) (k + 1),
              rfl, ?_, ?_⟩
            · calc (pySliceTo (listModify conv j fun it => editInteraction it nc now)
                      (k + 1)).length
                  ≤ (listModify conv j fun it => editInteraction it nc now).length :=
                    length_pySliceTo_le _ _
                _ = conv.length := length_listModify _ _ _
            · simp [edit_message, hl, hp, hg, hr]

/-- Non-preserve `retry_message` never grows any log: the store invariant
`length ≤ max_history` is preserved. -/
theorem retry_message_false_inv (max_history : Nat) (st : ConvState)
    (cid mid : String) (mc : Option String) (now : String)
    (hst : ∀ p ∈ st, (Prod.snd p).length ≤ max_history) :
    ∀ p ∈ (retry_message st cid mid mc false now).1,
      (Prod.snd p).length ≤ max_history := by
  cases hl : lookupConv st cid with
  | none => simpa [retry_message, hl] using hst
  | some conv =>
    have hconv : conv.length ≤ max_history := hst (cid, conv) (lookupConv_mem st cid conv hl)
    cases hp : parseMsgIndex mid with
    | error e => simpa [retry_message, hl, hp] using hst
    | ok k =>
      by_cases hg : (conv.length : Int) ≤ k
      · simpa [retry_message, hl, hp, hg] using hst
      · have hbound : ∀ (j : Nat) (f : Interaction → Interaction),
            (pySliceTo (listModify conv j f) (k + 1)).length ≤ max_history := by
          intro j f
          calc (pySliceTo (listModify conv j f) (k + 1)).length
              ≤ (listModify conv j f).length := length_pySliceTo_le _ _
            _ = conv.length := length_listModify _ _ _
            _ ≤ max_history := hconv
        cases mc with
        | none =>
          cases hq : pyIdx conv k with
          | none => simpa [retry_message, hl, hp, hg, hq] using hst
          | some it =>
            cases hr : pyResolve conv.length k with
            | none => simpa [retry_message, hl, hp, hg, hq, hr] using hst
            | some j =>
              have hset := inv_setConv max_history st cid
                (pySliceTo
                  (listModify conv j
                    (fun x => { x with question := it.question, timestamp := now,
                                       is_retry := true }))
                  (k + 1)) hst (hbound j _)
              simpa [retry_message, hl, hp, hg, hq, hr] using hset
        | some s =>
          by_cases hs : s = ""
          · subst hs
            cases hq : pyIdx conv k with
            | none => simpa [retry_message, hl, hp, hg, hq] using hst
            | some it =>
              cases hr : pyResolve conv.length k with
              | none => simpa [retry_message, hl, hp, hg, hq, hr] using hst
              | some j =>
                have hset := inv_setConv max_history st cid
                  (pySliceTo
                    (listModify conv j
                      (fun x => { x with question := it.question, timestamp := now,
                                         is_retry := true }))
                    (k + 1)) hst (hbound j _)
                simpa [retry_message, hl, hp, hg, hq, hr] using hset
          · cases hr : pyResolve conv.length k with
            | none => simpa [retry_message, hl, hp, hg, hs, hr] using hst
            | some j =>
              have hset := inv_setConv max_history st cid
                (pySliceTo
                  (listModify conv j
                    (fun x => { x with question := s, timestamp := now,
                                       is_retry := true }))
                  (k + 1)) hst (hbound j _)
              simpa [retry_message, hl, hp, hg, hs, hr] using hset

/-- Non-preserve `retry_response` never grows any log. -/
theorem retry_response_false_inv (max_history : Nat) (st : ConvState)
    (cid mid now : String)
    (hst : ∀ p ∈ st, (Prod.snd p).length ≤ max_history) :
    ∀ p ∈ (retry_response st cid mid false now).1,
      (Prod.snd p).length ≤ max_history := by
  cases hl : lookupConv st cid with
  | none => simpa [retry_response, hl] using hst
  | some conv =>
    have hconv : conv.length ≤ max_history := hst (cid, conv) (lookupConv_mem st cid conv hl)
    cases hp : parseMsgIndex mid with
    | error e => simpa [retry_response, hl, hp] using hst
    | ok k =>
      by_cases hg : (conv.length : Int) ≤ k
      · simpa [retry_response, hl, hp, hg] using hst
      · by_cases hqi : (if k % 2 = 1 then k - 1 else k) < 0
            ∨ (conv.length : Int) ≤ (if k % 2 = 1 then k - 1 else k)
        · simpa [retry_response, hl, hp, hg, hqi] using hst
        · cases hq : pyIdx conv (if k % 2 = 1 then k - 1 else k) with
          | none => simpa [retry_response, hl, hp, hg, hqi, hq] using hst
          | some qit =>
            cases hr : pyResolve conv.length k with
            | none => simpa [retry_response, hl, hp, hg, hqi, hq, hr] using hst
            | some j =>
              have hset := inv_setConv max_history st cid
                (pySliceTo
                  (listModify conv j
                    (fun x => { x with retry_count := some (x.retry_count.getD 0 + 1),
                                       timestamp := now }))
                  (k + 1)) hst
                (by
                  calc (pySliceTo (listModify conv j
                          (fun x => { x with
                            retry_count := some (x.retry_count.getD 0 + 1),
                            timestamp := now })) (k + 1)).length
                      ≤ (listModify conv j _).length := length_pySliceTo_le _ _
                    _ = conv.length := length_listModify _ _ _
                    _ ≤ max_history := hconv)
              simpa [retry_response, hl, hp, hg, hqi, hq, hr] using hset

theorem delete_conversation_inv (max_history : Nat) (st : ConvState) (cid : String)
    (hst : ∀ p ∈ st, (Prod.snd p).length ≤ max_history) :
    ∀ p ∈ (delete_conversation st cid).1, (Prod.snd p).length ≤ max_history := by
  cases hl : lookupConv st cid with
  | none => simpa [delete_conversation, hl] using hst
  | some conv =>
    simpa [delete_conversation, hl] using inv_eraseConv max_history st cid hst

theorem cleanupGo_inv (fromIso : String → Option Int) (now max_age_days : Int)
    (max_history : Nat) (ks : List String) :
    ∀ (st : ConvState) (count : Int),
      (∀ p ∈ st, (Prod.snd p).length ≤ max_history) →
      ∀ p ∈ (cleanupGo fromIso now max_age_days ks st count).2,
        (Prod.snd p).length ≤ max_history := by
  induction ks with
  | nil =>
    intro st count hst
    simpa [cleanupGo] using hst
  | cons cid ks ih =>
    intro st count hst
    cases hl : lookupConv st cid with
    | none => simpa [cleanupGo, hl] using hst
    | some conv =>
      cases conv with
      | nil =>
        have hdel := delete_conversation_inv max_history st cid hst
        simpa [cleanupGo, hl] using ih _ _ hdel
      | cons first more =>
        cases hf : fromIso (more.getLastD first).timestamp with
        | none =>
          rw [List.getLastD_eq_getLast?] at hf
          simpa [cleanupGo, hl, hf] using hst
        | some t =>
          rw [List.getLastD_eq_getLast?] at hf
          by_cases hage : max_age_days < now - t
          · have hdel := delete_conversation_inv max_history st cid hst
            simpa [cleanupGo, hl, hf, hage] using ih _ _ hdel
          · simpa [cleanupGo, hl, hf, hage] using ih _ _ hst

/-- Any single operation other than a preserve-history retry keeps every
log within `max_history`. -/
theorem applyStoreOp_cap (fromIso : String → Option Int) (max_history : Nat)
    (st : ConvState) (op : StoreOp) (hop : opNoPreserveRetry op = true)
    (hst : ∀ p ∈ st, (Prod.snd p).length ≤ max_history) :
    ∀ p ∈ applyStoreOp fromIso max_history st op,
      (Prod.snd p).length ≤ max_history := by
  cases op with
  | create fid =>
    exact inv_setConv max_history st fid [] hst (by simp)
  | append cid fid q r c now =>
    show ∀ p ∈ add_interaction st cid q r c max_history now fid,
      (Prod.snd p).length ≤ max_history
    cases hl : lookupConv st cid with
    | none =>
      rw [add_interaction_unknown st cid q r c max_history now fid hl]
      refine inv_setConv max_history _ fid _ ?_ ?_
      · exact inv_setConv max_history st fid [] hst (by simp)
      · exact capAppend_length_le [] _ max_history (by simp)
    | some conv =>
      rw [add_interaction_known st cid q r c max_history now fid conv hl]
      exact inv_setConv max_history st cid _ hst
        (capAppend_length_le conv _ max_history
          (hst (cid, conv) (lookupConv_mem st cid conv hl)))
  | editMsg cid mid nc ph now =>
    show ∀ p ∈ (edit_message st cid mid nc ph now).1, (Prod.snd p).length ≤ max_history
    rcases edit_message_state st cid mid nc now ph with h | ⟨conv, v, hl, hlen, h⟩
    · rw [h]; exact hst
    · rw [h]
      exact inv_setConv max_history st cid v hst
        (le_trans hlen (hst (cid, conv) (lookupConv_mem st cid conv hl)))
  | retryMsg cid mid mc ph now =>
    have hph : ph = false := by
      cases ph
      · rfl
      · simp [opNoPreserveRetry] at hop
    subst hph
    exact retry_message_false_inv max_history st cid mid mc now hst
  | retryResp cid mid ph now =>
    have hph : ph = false := by
      cases ph
      · rfl
      · simp [opNoPreserveRetry] at hop
    subst hph
    exact retry_response_false_inv max_history st cid mid now hst
  | deleteConv cid =>
    exact delete_conversation_inv max_history st cid hst
  | cleanupOld now maxAge =>
    exact cleanupGo_inv fromIso now maxAge max_history _ st 0 hst

/-- C3 (amended): every store state reached by a sequence of operations
containing no preserve-history retry keeps every conversation's log within
`max_history`. -/
theorem max_history_cap_without_preserve_retries (fromIso : String → Option Int)
    (max_history : Nat) (ops : List StoreOp)
    (hops : ops.all opNoPreserveRetry = true) :
    ∀ (cid : String) (conv : List Interaction),
      lookupConv (runOps fromIso max_history ops) cid = some conv →
      conv.length ≤ max_history := by
  have main : ∀ (l : List StoreOp), l.all opNoPreserveRetry = true →
      ∀ (st : ConvState), (∀ p ∈ st, (Prod.snd p).length ≤ max_history) →
      ∀ p ∈ l.foldl (applyStoreOp fromIso max_history) st,
        (Prod.snd p).length ≤ max_history := by
    intro l
    induction l with
    | nil =>
      intro _ st hst
      simpa using hst
    | cons op rest ih =>
      intro hall st hst
      rw [List.all_cons, Bool.and_eq_true] at hall
      exact ih hall.2 (applyStoreOp fromIso max_history st op)
        (applyStoreOp_cap fromIso max_history st op hall.1 hst)
  intro cid conv hl
  exact main ops hops [] (by simp) (cid, conv) (lookupConv_mem _ cid conv hl)

theorem max_history_cap_without_preserve_retries_witness :
    demoSafeOps.all opNoPreserveRetry = true
    ∧ (∀ (cid : String) (conv : List Interaction),
        lookupConv (runOps pyInt 1 demoSafeOps) cid = some conv →
        conv.length ≤ 1) :=
  ⟨by decide, max_history_cap_without_preserve_retries pyInt 1 demoSafeOps (by decide)⟩
